import Mathlib

/-
Verification of the woo-helpers pipeline (asolopovas/woo-helpers).

Shallow embedding of the fetch-generate-validate-persist pipeline:
the update tracker and product cache (helpers: TrackerUpdate, ProductCache),
the paginated catalog fetch (GetProducts), the HTML-to-Markdown
post-processing (cleanHTMLToMarkdown), the per-product SEO retry loop
(UpdateSEO) and the image upload filter (UploadImageToWordPress, Contains).
External effects (file reads, HTTP requests, the text-generation API and
the HTML-to-Markdown library call) are passed in as explicit oracle values,
so every function below is executable; everything after the oracles is
translated from the Go source.
-/

set_option autoImplicit false

namespace Wooh

universe u

/-! ## Update tracker (TrackerUpdate, from the helpers file)

The Go struct holds a map from int product ids to bool; a missing key reads
as false, which the function model below reproduces.  The mutex only guards
the save and is irrelevant to the membership semantics. -/

structure TrackerUpdate where
  UpdatedIDs : Int → Bool

/-- A fresh tracker, as built by the restartTracking branch of UpdateSEO:
every id reads false. -/
def TrackerUpdate.fresh : TrackerUpdate := ⟨fun _ => false⟩

/-- Setting UpdatedIDs at one id to true, as in the commit path of UpdateSEO. -/
def TrackerUpdate.mark (t : TrackerUpdate) (id : Int) : TrackerUpdate :=
  ⟨fun j => if j = id then true else t.UpdatedIDs j⟩

/-- Reading the map: tracker.UpdatedIDs at the given id. -/
def TrackerUpdate.isMarked (t : TrackerUpdate) (id : Int) : Bool :=
  t.UpdatedIDs id

/-- Marking a list of ids in order, one commit after another. -/
def markAll (t : TrackerUpdate) : List Int → TrackerUpdate
  | [] => t
  | id :: rest => markAll (t.mark id) rest

/-! ## Product cache (ProductCache.FetchFromCache)

The file read and the JSON decode are oracles: a read either reports that
the file does not exist, fails with another IO error, or yields content
that decodes to a ProductCache value or fails to decode.  Timestamps are
integers; the Go test is time.Since(pc.LastUpdate) <= maxAge, that is
now - LastUpdate <= maxAge.  The Go function returns a pair
(products, error), with nil, nil meaning absent; the model keeps the pair
shape so that exclusivity of data and error is a statement, not a type. -/

structure ProductCache (α : Type u) where
  Products : List α
  LastUpdate : Int

inductive CacheRead (α : Type u) where
  | notExist
  | readErr
  | content (parsed : Option α)

inductive CacheErr where
  | ioError
  | decodeError
deriving DecidableEq

/-- Translated from ProductCache.FetchFromCache: missing file yields
(nil, nil); another read error yields an IO error; undecodable content
yields a decode error; a fresh enough snapshot yields its product list,
an expired one yields (nil, nil). -/
def FetchFromCache {α : Type u} (read : CacheRead (ProductCache α))
    (now maxAge : Int) : Option (List α) × Option CacheErr :=
  match read with
  | .notExist => (none, none)
  | .readErr => (none, some .ioError)
  | .content none => (none, some .decodeError)
  | .content (some pc) =>
      if now - pc.LastUpdate ≤ maxAge then (some pc.Products, none)
      else (none, none)

/-! ## Paginated catalog fetch (GetProducts, cache-miss path)

The remote listing endpoint is an oracle from page number to outcome.  The
Go loop is unbounded; the model takes a fuel argument, and the pagination
theorem supplies fuel at least the number of pages, under which the fuel
branch is never reached.  The pair component counts page requests issued. -/

inductive PageOutcome (α : Type u) where
  | transportErr
  | httpErr
  | parseErr
  | ok (items : List α)

inductive FetchErr where
  | transport (page : Nat)
  | httpStatus (page : Nat)
  | parse (page : Nat)
deriving DecidableEq

def perPage : Nat := 100

/-- Translated from the fetch loop of GetProducts: request the current
page; abort on any failure; append the items and stop when a page returns
fewer than perPage items, else continue with the next page. -/
def getProductsLoop {α : Type u} (srv : Nat → PageOutcome α) :
    Nat → List α → Nat → Except FetchErr (List α) × Nat
  | _, acc, 0 => (.ok acc, 0)
  | page, acc, fuel+1 =>
    match srv page with
    | .transportErr => (.error (.transport page), 1)
    | .httpErr => (.error (.httpStatus page), 1)
    | .parseErr => (.error (.parse page), 1)
    | .ok items =>
      if items.length < perPage then (.ok (acc ++ items), 1)
      else
        let r := getProductsLoop srv (page + 1) (acc ++ items) fuel
        (r.1, r.2 + 1)

/-- GetProducts on a cache miss: start at page 1 with an empty accumulator. -/
def GetProductsFetch {α : Type u} (srv : Nat → PageOutcome α) (fuel : Nat) :
    Except FetchErr (List α) × Nat :=
  getProductsLoop srv 1 [] fuel

/-- Concatenation of the pages p, p+1, ..., p+cnt-1 in response order. -/
def pagesConcat {α : Type u} (L : Nat → List α) (p : Nat) : Nat → List α
  | 0 => []
  | cnt+1 => L p ++ pagesConcat L (p + 1) cnt

/-! ## HTML-to-Markdown post-processing (cleanHTMLToMarkdown)

The Go function first calls the external html-to-markdown library
(terminating the process via log.Fatal if that call errors) and then
post-processes the markdown: ReplaceAll of four hashes by two, removal of
every match of the image regex, collapapse of runs of two or more newlines
to one, and TrimSpace.  The post-processing below is translated from the
source; all of it works on the character list of the string. -/

/-- Translated from strings.ReplaceAll(markdown, fourHashes, twoHashes):
scan left to right, replacing non-overlapping occurrences. -/
def replaceAllHash : List Char → List Char
  | '#' :: '#' :: '#' :: '#' :: rest => '#' :: '#' :: replaceAllHash rest
  | c :: rest => c :: replaceAllHash rest
  | [] => []

/-- Lazy scan for the regex fragment dot-star-lazy, close bracket, open
paren: consume characters (never a newline, since dot does not match
newline in Go regexp) up to the first adjacent close-bracket open-paren
pair, returning the remainder. -/
def scanImageAlt : List Char → Option (List Char)
  | ']' :: '(' :: rest => some rest
  | '\n' :: _ => none
  | _ :: rest => scanImageAlt rest
  | [] => none

/-- Lazy scan for dot-star-lazy then a close paren: consume characters
(never a newline) up to the first close paren, returning the remainder. -/
def scanImageUrl : List Char → Option (List Char)
  | ')' :: rest => some rest
  | '\n' :: _ => none
  | _ :: rest => scanImageUrl rest
  | [] => none

/-- Translated from imageRegex.ReplaceAllString(markdown, emptyString)
with the image pattern bang, bracketed lazy alt text, parenthesized lazy
url: scan left to right; at each position try to match the image pattern
(bang, open bracket, lazy scan to close-bracket open-paren, lazy scan to
close paren); on a match drop it and continue after it, otherwise emit one
character and continue.  The fuel argument is the list length, which
bounds the number of scanning steps, making the recursion structural. -/
def removeImagesFuel : Nat → List Char → List Char
  | 0, l => l
  | _+1, [] => []
  | fuel+1, '!' :: '[' :: rest =>
      match scanImageAlt rest with
      | some r1 =>
        match scanImageUrl r1 with
        | some r2 => removeImagesFuel fuel r2
        | none => '!' :: removeImagesFuel fuel ('[' :: rest)
      | none => '!' :: removeImagesFuel fuel ('[' :: rest)
  | fuel+1, c :: rest => c :: removeImagesFuel fuel rest

def removeImages (l : List Char) : List Char :=
  removeImagesFuel l.length l

/-- Translated from newlineRegex.ReplaceAllString with the pattern newline
repeated two or more times, replaced by one newline: every maximal run of
two or more newlines collapses to a single newline, which is the same as
dropping the first of every adjacent newline pair. -/
def collapseNewlines : List Char → List Char
  | [] => []
  | [c] => [c]
  | c1 :: c2 :: rest =>
      if c1 = '\n' && c2 = '\n' then collapseNewlines (c2 :: rest)
      else c1 :: collapseNewlines (c2 :: rest)

/-- The whitespace predicate of strings.TrimSpace (unicode.IsSpace):
tab through carriage return, space, next line, no-break space, ogham space
mark, the en quad through hair space range, line and paragraph separator,
narrow no-break space, medium mathematical space, ideographic space. -/
def goIsSpace (c : Char) : Bool :=
  c.toNat == 9 || c.toNat == 10 || c.toNat == 11 || c.toNat == 12 ||
  c.toNat == 13 || c.toNat == 32 || c.toNat == 0x85 || c.toNat == 0xA0 ||
  c.toNat == 0x1680 ||
  (0x2000 ≤ c.toNat && c.toNat ≤ 0x200A) ||
  c.toNat == 0x2028 || c.toNat == 0x2029 || c.toNat == 0x202F ||
  c.toNat == 0x205F || c.toNat == 0x3000

/-- Removal of trailing whitespace, the right half of strings.TrimSpace. -/
def trimRight : List Char → List Char
  | [] => []
  | c :: rest =>
    match trimRight rest with
    | [] => if goIsSpace c then [] else [c]
    | r => c :: r

/-- strings.TrimSpace: drop leading whitespace, then trailing whitespace. -/
def trimSpace (l : List Char) : List Char :=
  trimRight (l.dropWhile goIsSpace)

/-- Modelled from the spec for the external library call only: the
html-to-markdown conversion at the head of cleanHTMLToMarkdown lives in a
third-party package, and the spec describes it as best-effort conversion,
so on text containing no HTML markup it is taken to return its input
unchanged.  Everything after that point - the hash downgrade, image
removal, newline collapse and trim - is translated from the source of
cleanHTMLToMarkdown. -/
def cleanHTMLToMarkdown (s : String) : String :=
  String.mk (trimSpace (collapseNewlines (removeImages (replaceAllHash s.data))))

/-! ## Per-product SEO update (UpdateSEO)

OpenAIProcess is an oracle indexed by attempt number: none stands for a
call returning an error (in which case the Go multiple assignment stores
the zero-value empty strings into metaTitle and metaDescription), some
(t, d) for a call returning that pair with a nil error.  The length checks
use Go len on strings, which counts UTF-8 bytes. -/

def maxTitleLength : Nat := 60
def maxDescriptionLength : Nat := 160
def retries : Nat := 10

/-- The acceptance check of the retry loop, len(metaTitle) <= 60 and
len(metaDescription) <= 160 with Go len, the UTF-8 byte count. -/
def seoAcceptable (t d : String) : Bool :=
  decide (t.utf8ByteSize ≤ maxTitleLength) &&
  decide (d.utf8ByteSize ≤ maxDescriptionLength)

/-- Translated from the retry loop of UpdateSEO: up to the given fuel
(retries in the caller), call the generator at the current attempt index;
on an error carry the empty pair and continue; on a pair within the length
limits break; on an over-length pair carry it and continue.  Returns the
final pair held by metaTitle and metaDescription together with the number
of generator calls made. -/
def genLoop (gen : Nat → Option (String × String)) :
    Nat → String → String → Nat → (String × String) × Nat
  | _, t, d, 0 => ((t, d), 0)
  | i, _, _, fuel+1 =>
    match gen i with
    | none =>
        let r := genLoop gen (i + 1) "" "" fuel
        (r.1, r.2 + 1)
    | some (t2, d2) =>
        if seoAcceptable t2 d2 then ((t2, d2), 1)
        else
          let r := genLoop gen (i + 1) t2 d2 fuel
          (r.1, r.2 + 1)

/-- The full retry loop: the Go vars metaTitle and metaDescription start
at the zero value, the attempt index at 0, the bound at retries = 10. -/
def runGen (gen : Nat → Option (String × String)) : (String × String) × Nat :=
  genLoop gen 0 "" "" retries

/-- The per-product oracle data of one iteration of the UpdateSEO loop:
whether the tracker already holds the id, the outcome of the external
html-to-markdown conversion of the description (none for an error, which
log.Fatal turns into process termination), the generator oracle, whether
the interactive prompt is enabled and, if so, the first valid answer the
user gives, and whether the remote metadata PUT succeeds (transport
success and non-error status). -/
structure ProductEnv where
  tracked : Bool
  convert : Option String
  gen : Nat → Option (String × String)
  promptMode : Bool
  approve : Bool
  remoteOK : Bool

/-- Outcome of one iteration of the per-product loop of UpdateSEO.  fatal
is process termination from log.Fatal inside cleanHTMLToMarkdown; every
skipped constructor is a continue to the next product; committed is the
success path, which marks the tracker.  The Go branch that would return an
error from UpdateSEO when cleanHTMLToMarkdown returns a non-nil error is
unreachable, because cleanHTMLToMarkdown either terminates the process or
returns a nil error, so the model has no constructor for it. -/
inductive StepResult where
  | fatal
  | skippedTracked
  | skippedGen
  | skippedPrompt
  | skippedRemote
  | committed (t d : String)
deriving DecidableEq

/-- Translated from the body of the per-product loop of UpdateSEO: skip if
tracked; convert the description (process death on a conversion error);
run the generation retry loop; skip when the final pair fails the length
guard (the Go guard is the De Morgan dual, len greater-than on either
component); when prompting, skip on a negative answer; skip when the
remote update fails; otherwise commit the pair. -/
def processProduct (env : ProductEnv) : StepResult :=
  if env.tracked then .skippedTracked
  else
    match env.convert with
    | none => .fatal
    | some _ =>
      if seoAcceptable (runGen env.gen).1.1 (runGen env.gen).1.2 then
        if env.promptMode && !env.approve then .skippedPrompt
        else if env.remoteOK then .committed (runGen env.gen).1.1 (runGen env.gen).1.2
        else .skippedRemote
      else .skippedGen

/-- The tracker effect of one product outcome: only a commit marks the id
(tracker.UpdatedIDs put to true on the success path). -/
def applyOutcome (tr : TrackerUpdate) (id : Int) : StepResult → TrackerUpdate
  | .committed _ _ => tr.mark id
  | _ => tr

/-- The batch loop over the products: each product yields its outcome and
the loop continues, except that a fatal outcome terminates the process,
so no later product is reached. -/
def runBatch : List ProductEnv → List StepResult
  | [] => []
  | e :: rest =>
    match processProduct e with
    | .fatal => [.fatal]
    | r => r :: runBatch rest

/-! ## Image upload filter (UploadImageToWordPress and Contains)

Contains is translated verbatim from the helpers: the loop body returns
unconditionally during its first iteration, so only the first element of
the slice is ever consulted, and the roles are such that the file
extension is the regex pattern and the list element the text searched.
The extension patterns reaching regexp.MatchString here consist only of
literal characters and the dot metacharacter (any character except
newline), and always compile, so the discarded error is nil; the matcher
below implements exactly that regex fragment, unanchored. -/

def dotLitMatchAt : List Char → List Char → Bool
  | [], _ => true
  | _ :: _, [] => false
  | p :: ps, c :: cs =>
      (if p = '.' then !(c == '\n') else p == c) && dotLitMatchAt ps cs

def dotLitSearch : List Char → List Char → Bool
  | pat, [] => dotLitMatchAt pat []
  | pat, c :: rest => dotLitMatchAt pat (c :: rest) || dotLitSearch pat rest

def regexpMatchString (pattern s : String) : Bool :=
  dotLitSearch pattern.data s.data

/-- Translated from the helpers Contains: iterate over the slice, but the
body returns the match result of the first element immediately. -/
def Contains (strRange : List String) (pattern : String) : Bool :=
  match strRange with
  | [] => false
  | val :: _ => regexpMatchString pattern val

/-- The suffix of the name starting at its last dot, if any; directory
entry names contain no path separator, so this is filepath.Ext. -/
def lastDotSuffix : List Char → Option (List Char)
  | [] => none
  | c :: rest =>
    match lastDotSuffix rest with
    | some s => some s
    | none => if c = '.' then some (c :: rest) else none

def filepathExt (name : String) : String :=
  match lastDotSuffix name.data with
  | some s => String.mk s
  | none => ""

structure DirEntry where
  name : String
  isDir : Bool

def imageExtensions : List String := [".jpg", ".jpeg", ".png", ".gif"]

/-- The per-entry condition of the UploadImageToWordPress loop: not a
directory, and Contains of the extension list with the entry extension. -/
def shouldUpload (e : DirEntry) : Bool :=
  !e.isDir && Contains imageExtensions (filepathExt e.name)

/-- The entries the loop processes (uploads as media and creates a product
for), in directory order. -/
def uploadSelection (files : List DirEntry) : List String :=
  (files.filter shouldUpload).map DirEntry.name

/-! ## Media response field extraction (UploadImageToWordPress)

A decoded JSON value as encoding/json produces inside a
map-string-to-interface: numbers become float64, strings become string.
The two unchecked type assertions on source_url and id panic when the
looked-up value is missing or of another dynamic type.  Number values are
carried as integers here; only the dynamic type tag matters to the
assertions, no float arithmetic is involved. -/

inductive JVal where
  | jnull
  | jbool (b : Bool)
  | jnum (n : Int)
  | jstr (s : String)
  | jarr (elems : List JVal)
  | jobj (fields : List (String × JVal))

def jlookup : List (String × JVal) → String → Option JVal
  | [], _ => none
  | (k, v) :: rest, key => if k = key then some v else jlookup rest key

inductive MediaExtract where
  | panicked
  | extracted (sourceUrl : String) (id : Int)
deriving DecidableEq

/-- Translated from the two assertions in UploadImageToWordPress: look up
source_url and assert string, then look up id and assert float64; any
failed assertion panics. -/
def extractMediaFields (fields : List (String × JVal)) : MediaExtract :=
  match jlookup fields "source_url" with
  | some (.jstr url) =>
    match jlookup fields "id" with
    | some (.jnum n) => .extracted url n
    | _ => .panicked
  | _ => .panicked

/-! ## Concrete instances used in the claim theorems -/

/-- A generator oracle on which every call returns an error. -/
def genAllErrors : Nat → Option (String × String) := fun _ => none

/-- A product whose description converts fine, whose generation attempts
all error, with prompting off and a remote update that would succeed. -/
def envAllErrors : ProductEnv := ⟨false, some "", genAllErrors, false, true, true⟩

/-- A product whose description conversion errors. -/
def envConvertFails : ProductEnv := ⟨false, none, genAllErrors, false, true, true⟩

/-- A product on which every step succeeds. -/
def envHealthy : ProductEnv := ⟨false, some "", fun _ => some ("T", "D"), false, true, true⟩

/-- A 31-character title of two-byte characters: 31 characters, 62 UTF-8
bytes. -/
def longTitle : String := String.mk (List.replicate 31 'é')

/-- A product whose generator always returns the two-byte-character title
with an empty description. -/
def envNonAscii : ProductEnv := ⟨false, some "", fun _ => some (longTitle, ""), false, true, true⟩

/-- A product whose generator returns a short ASCII pair on the first
attempt. -/
def envCommit : ProductEnv :=
  ⟨false, some "", fun _ => some ("RVP Flooring", "Durable."), false, true, true⟩

/-- A listing endpoint with 100 items on page 1 and 40 items afterwards. -/
def pageItems : Nat → List Nat :=
  fun p => if p = 1 then List.replicate 100 0 else List.replicate 40 0

def srvTwoPages : Nat → PageOutcome Nat := fun p => .ok (pageItems p)

/-- Absence of adjacent newline pairs, the shape the newline collapse
establishes; used by the idempotence analysis of the normalizer. -/
def noDoubleNewline : List Char → Bool
  | c1 :: c2 :: rest => !(c1 == '\n' && c2 == '\n') && noDoubleNewline (c2 :: rest)
  | _ => true

/-! ## Helper lemmas -/

theorem markAll_isMarked_of_not_mem : ∀ (ids : List Int) (tr : TrackerUpdate) (id : Int),
    id ∉ ids → (markAll tr ids).isMarked id = tr.isMarked id := by
  intro ids
  induction ids with
  | nil => intro tr id _; rfl
  | cons j rest ih =>
    intro tr id h
    have h1 : id ≠ j := fun e => h (e ▸ List.mem_cons_self j rest)
    have h2 : id ∉ rest := fun e => h (List.mem_cons_of_mem j e)
    show (markAll (tr.mark j) rest).isMarked id = tr.isMarked id
    rw [ih (tr.mark j) id h2]
    simp [TrackerUpdate.mark, TrackerUpdate.isMarked, h1]

theorem seoAcceptable_iff (t d : String) :
    seoAcceptable t d = true ↔
      t.utf8ByteSize ≤ maxTitleLength ∧ d.utf8ByteSize ≤ maxDescriptionLength := by
  simp [seoAcceptable]

/-! ## Claim theorems -/

/-- C5: for every cache file whose content parses correctly as the cache
structure but whose stored timestamp satisfies now minus timestamp greater
than maxAge, FetchFromCache returns absent (a nil list and a nil error),
not the stored product list. -/
theorem fetchFromCache_expired_absent {α : Type u} (pc : ProductCache α)
    (now maxAge : Int) (h : now - pc.LastUpdate > maxAge) :
    FetchFromCache (.content (some pc)) now maxAge = (none, none) := by
  simp only [FetchFromCache]
  rw [if_neg (not_le.mpr h)]

/-- Witness for C5 at a concrete expired snapshot. -/
theorem fetchFromCache_expired_absent_witness :
    (100 : Int) - (0 : Int) > 10 ∧
    FetchFromCache (.content (some (ProductCache.mk ([1, 2] : List Nat) 0))) 100 10
      = (none, none) :=
  ⟨by decide, fetchFromCache_expired_absent (ProductCache.mk ([1, 2] : List Nat) 0) 100 10 (by decide)⟩

/-- C6: FetchFromCache fails exactly as specified: a missing file yields
absent with a nil error; another read error yields the IO error; content
that does not decode yields the decode error; and no case returns both
data and an error. -/
theorem fetchFromCache_error_contract :
    (∀ (now maxAge : Int),
      FetchFromCache (CacheRead.notExist : CacheRead (ProductCache Nat)) now maxAge
        = (none, none)) ∧
    (∀ (now maxAge : Int),
      FetchFromCache (CacheRead.readErr : CacheRead (ProductCache Nat)) now maxAge
        = (none, some CacheErr.ioError)) ∧
    (∀ (now maxAge : Int),
      FetchFromCache (CacheRead.content none : CacheRead (ProductCache Nat)) now maxAge
        = (none, some CacheErr.decodeError)) ∧
    (∀ (read : CacheRead (ProductCache Nat)) (now maxAge : Int),
      (FetchFromCache read now maxAge).1 = none ∨ (FetchFromCache read now maxAge).2 = none) := by
  refine ⟨fun _ _ => rfl, fun _ _ => rfl, fun _ _ => rfl, ?_⟩
  intro read now maxAge
  cases read with
  | notExist => exact Or.inl rfl
  | readErr => exact Or.inl rfl
  | content p =>
    cases p with
    | none => exact Or.inl rfl
    | some pc =>
      simp only [FetchFromCache]
      split
      · exact Or.inr rfl
      · exact Or.inl rfl

/-- C9: marking an id makes isMarked of that id true on any tracker state;
an id never marked, that is a fresh tracker after any sequence of marks
avoiding that id, reads false; and a reset tracker reads false at every
id, discarding all prior marks. -/
theorem tracker_mark_isMarked_reset :
    (∀ (tr : TrackerUpdate) (id : Int), (tr.mark id).isMarked id = true) ∧
    (∀ (ids : List Int) (id : Int), id ∉ ids →
      (markAll TrackerUpdate.fresh ids).isMarked id = false) ∧
    (∀ (id : Int), TrackerUpdate.fresh.isMarked id = false) := by
  refine ⟨?_, ?_, fun _ => rfl⟩
  · intro tr id
    simp [TrackerUpdate.mark, TrackerUpdate.isMarked]
  · intro ids id h
    rw [markAll_isMarked_of_not_mem ids TrackerUpdate.fresh id h]
    rfl

/-- Witness for C9: ids 1 and 2 marked, id 3 still unmarked. -/
theorem tracker_mark_isMarked_reset_witness :
    (markAll TrackerUpdate.fresh [1, 2]).isMarked 3 = false :=
  tracker_mark_isMarked_reset.2.1 [1, 2] 3 (by decide)

/-- C10: the media response field extraction panics exactly on a missing
or non-string source_url or a missing or non-numeric id, and extracts both
without panicking when they are present with those dynamic types. -/
theorem extractMediaFields_panic_contract :
    (∀ (fields : List (String × JVal)) (url : String) (n : Int),
      jlookup fields "source_url" = some (JVal.jstr url) →
      jlookup fields "id" = some (JVal.jnum n) →
      extractMediaFields fields = .extracted url n) ∧
    (∀ (fields : List (String × JVal)),
      (¬ ∃ url n, jlookup fields "source_url" = some (JVal.jstr url) ∧
          jlookup fields "id" = some (JVal.jnum n)) →
      extractMediaFields fields = .panicked) := by
  constructor
  · intro fields url n h1 h2
    unfold extractMediaFields
    rw [h1, h2]
  · intro fields h
    unfold extractMediaFields
    cases hu : jlookup fields "source_url" with
    | none => rfl
    | some v =>
      cases v with
      | jnull => rfl
      | jbool b => rfl
      | jnum m => rfl
      | jarr es => rfl
      | jobj fs => rfl
      | jstr url =>
        cases hi : jlookup fields "id" with
        | none => rfl
        | some w =>
          cases w with
          | jnull => rfl
          | jbool b => rfl
          | jstr s2 => rfl
          | jarr es => rfl
          | jobj fs => rfl
          | jnum n => exact absurd ⟨url, n, hu, hi⟩ h

/-- Witness for C10 at a concrete well-shaped response object. -/
theorem extractMediaFields_panic_contract_witness :
    extractMediaFields [("source_url", JVal.jstr "u"), ("id", JVal.jnum 5)]
      = .extracted "u" 5 :=
  extractMediaFields_panic_contract.1 _ "u" 5 rfl rfl

/-- C1, at the failing input where every generation attempt errors: the
retry loop makes all 10 calls and ends holding the empty pair the Go
multiple assignment stored on the last erroring call; the empty pair
passes the length guard, so the product is committed (the empty strings
are pushed remotely) and the tracker marks it, instead of being skipped
and left unmarked as the claim states. -/
theorem updateSEO_all_failures_commits_empty :
    runGen genAllErrors = (("", ""), 10) ∧
    processProduct envAllErrors = .committed "" "" ∧
    (applyOutcome TrackerUpdate.fresh 7 (processProduct envAllErrors)).isMarked 7 = true :=
  ⟨by decide, by decide, by rfl⟩

/-- C3, at concrete directory entries: only the jpg entry among the four
claimed extensions passes the filter, because Contains consults only the
first list element and uses the extension as a regex pattern, so png,
jpeg and gif entries are skipped, while an entry with the unlisted
extension pg passes (its pattern, dot then p then g, matches inside the
first element jpg-with-dot).  Directories are skipped. -/
theorem uploadFilter_eval :
    shouldUpload ⟨"photo.jpg", false⟩ = true ∧
    shouldUpload ⟨"photo.png", false⟩ = false ∧
    shouldUpload ⟨"photo.jpeg", false⟩ = false ∧
    shouldUpload ⟨"photo.gif", false⟩ = false ∧
    shouldUpload ⟨"diagram.pg", false⟩ = true ∧
    shouldUpload ⟨"photo.jpg", true⟩ = false ∧
    uploadSelection [⟨"photo.jpg", false⟩, ⟨"photo.png", false⟩, ⟨"photo.jpeg", false⟩,
      ⟨"photo.gif", false⟩, ⟨"diagram.pg", false⟩] = ["photo.jpg", "diagram.pg"] := by
  decide

/-- C2 counterexample: a product whose description conversion errors
terminates the process from inside cleanHTMLToMarkdown, so the batch stops
and the next product is never reached - refuting that a failure in the
HTML-to-text step makes the orchestrator continue. -/
theorem updateSEO_convert_failure_terminates :
    processProduct envConvertFails = .fatal ∧
    runBatch [envConvertFails, envHealthy] = [.fatal] := by
  decide

theorem processProduct_ne_fatal (e : ProductEnv) (h : e.convert ≠ none) :
    processProduct e ≠ StepResult.fatal := by
  unfold processProduct
  split
  · simp
  · split
    · next hc => exact absurd hc h
    · split
      · split
        · simp
        · split <;> simp
      · simp

/-- C2 amended: as long as no description conversion errors, the batch
loop reaches every product and never terminates the process, whatever the
generation and remote outcomes are; the orchestrator body has no
reachable branch returning an error from UpdateSEO for a per-product
failure. -/
theorem runBatch_complete : ∀ (envs : List ProductEnv),
    (∀ e ∈ envs, e.convert ≠ none) →
    (runBatch envs).length = envs.length ∧ ∀ r ∈ runBatch envs, r ≠ StepResult.fatal := by
  intro envs
  induction envs with
  | nil => intro _; exact ⟨rfl, by intro r hr; cases hr⟩
  | cons e rest ih =>
    intro h
    have he : e.convert ≠ none := h e (List.mem_cons_self e rest)
    have hrest : ∀ x ∈ rest, x.convert ≠ none := fun x hx => h x (List.mem_cons_of_mem e hx)
    have hne := processProduct_ne_fatal e he
    obtain ⟨ihl, ihf⟩ := ih hrest
    have key : runBatch (e :: rest) = processProduct e :: runBatch rest := by
      cases hp : processProduct e <;> first
        | exact absurd hp hne
        | simp [runBatch, hp]
    refine ⟨by simp [key, ihl], ?_⟩
    intro r hrm
    rw [key] at hrm
    rcases List.mem_cons.mp hrm with h1 | h2
    · subst h1; exact hne
    · exact ihf r h2

/-- Witness for the amended C2 at a concrete one-product batch. -/
theorem runBatch_complete_witness :
    (runBatch [envHealthy]).length = 1 ∧
    ∀ r ∈ runBatch [envHealthy], r ≠ StepResult.fatal :=
  runBatch_complete [envHealthy] (by
    intro e he
    rw [List.mem_singleton] at he
    subst he
    exact fun hn => Option.noConfusion hn)

/-- C7 counterexample: a generated title of 31 characters, each two UTF-8
bytes, is within the claimed 60-character limit but is rejected by the
orchestrator, because the Go length checks count bytes: the pair fails
seoAcceptable and the product is skipped after exhausting the retries. -/
theorem seoLimits_not_characters :
    longTitle.length = 31 ∧
    longTitle.utf8ByteSize = 62 ∧
    seoAcceptable longTitle "" = false ∧
    processProduct envNonAscii = .skippedGen := by
  exact ⟨by decide, by decide, by decide, by decide⟩

/-- C7 amended: the orchestrator accepts a generated pair exactly when the
title is at most 60 and the description at most 160 UTF-8 bytes (Go len on
strings), not characters: every committed pair satisfies the byte bounds,
and the acceptance check holds exactly on the byte bounds. -/
theorem seoAcceptance_utf8_bytes :
    (∀ (env : ProductEnv) (t d : String), processProduct env = .committed t d →
      t.utf8ByteSize ≤ maxTitleLength ∧ d.utf8ByteSize ≤ maxDescriptionLength) ∧
    (∀ (t d : String), seoAcceptable t d = true ↔
      t.utf8ByteSize ≤ maxTitleLength ∧ d.utf8ByteSize ≤ maxDescriptionLength) := by
  refine ⟨?_, seoAcceptable_iff⟩
  intro env t d h
  unfold processProduct at h
  split at h
  · exact absurd h (by simp)
  · split at h
    · exact absurd h (by simp)
    · split at h
      · split at h
        · exact absurd h (by simp)
        · split at h
          · injection h with h1 h2
            subst h1
            subst h2
            exact (seoAcceptable_iff _ _).mp (by assumption)
          · exact absurd h (by simp)
      · exact absurd h (by simp)

/-- Witness for the amended C7: a committed concrete pair is within the
byte bounds. -/
theorem seoAcceptance_utf8_bytes_witness :
    ("RVP Flooring" : String).utf8ByteSize ≤ maxTitleLength ∧
    ("Durable." : String).utf8ByteSize ≤ maxDescriptionLength :=
  seoAcceptance_utf8_bytes.1 envCommit "RVP Flooring" "Durable." (by decide)

theorem getProductsLoop_run {α : Type u} (srv : Nat → PageOutcome α) (L : Nat → List α) :
    ∀ (k : Nat), ∀ (p : Nat) (acc : List α) (fuel : Nat),
      k + 1 ≤ fuel →
      (∀ i, p ≤ i → i ≤ p + k → srv i = .ok (L i)) →
      (∀ i, p ≤ i → i < p + k → (L i).length = perPage) →
      (L (p + k)).length < perPage →
      getProductsLoop srv p acc fuel = (.ok (acc ++ pagesConcat L p (k + 1)), k + 1) := by
  intro k
  induction k with
  | zero =>
    intro p acc fuel hfuel hok hfull hlast
    match fuel, hfuel with
    | f + 1, _ =>
      have hsp : srv p = .ok (L p) := hok p (le_refl p) (by omega)
      have hlp : (L p).length < perPage := by simpa using hlast
      simp [getProductsLoop, hsp, if_pos hlp, pagesConcat]
  | succ k ih =>
    intro p acc fuel hfuel hok hfull hlast
    match fuel, hfuel with
    | f + 1, hf =>
      have hsp : srv p = .ok (L p) := hok p (le_refl p) (by omega)
      have hlen : (L p).length = perPage := hfull p (le_refl p) (by omega)
      have ihr := ih (p + 1) (acc ++ L p) f (by omega)
        (fun i hi1 hi2 => hok i (by omega) (by omega))
        (fun i hi1 hi2 => hfull i (by omega) (by omega))
        (by have hpk : p + 1 + k = p + (k + 1) := by omega
            rw [hpk]; exact hlast)
      simp [getProductsLoop, hsp, if_neg (by omega : ¬ (L p).length < perPage), ihr,
        pagesConcat, List.append_assoc]

/-- C4: on a cache miss, GetProducts requests pages 1, 2, ... with page
size 100, stops after the first page whose response holds fewer than 100
items, and returns the concatenation of all pages in response order,
having made exactly as many page requests as there are pages. -/
theorem getProducts_pagination {α : Type u} (srv : Nat → PageOutcome α) (L : Nat → List α)
    (n fuel : Nat) (hn : 1 ≤ n) (hfuel : n ≤ fuel)
    (hok : ∀ i, 1 ≤ i → i ≤ n → srv i = .ok (L i))
    (hfull : ∀ i, 1 ≤ i → i < n → (L i).length = perPage)
    (hlast : (L n).length < perPage) :
    GetProductsFetch srv fuel = (.ok (pagesConcat L 1 n), n) := by
  obtain ⟨k, rfl⟩ : ∃ k, n = k + 1 := ⟨n - 1, by omega⟩
  unfold GetProductsFetch
  have hrun := getProductsLoop_run srv L k 1 [] fuel (by omega)
    (fun i hi1 hi2 => hok i hi1 (by omega))
    (fun i hi1 hi2 => hfull i hi1 (by omega))
    (by have h1k : 1 + k = k + 1 := by omega
        rw [h1k]; exact hlast)
  simpa using hrun

set_option maxRecDepth 10000 in
/-- Witness for C4: a listing endpoint with 100 items on page 1 and 40 on
page 2 yields the 140-item concatenation with exactly two page requests. -/
theorem getProducts_pagination_witness :
    GetProductsFetch srvTwoPages 5 = (.ok (pagesConcat pageItems 1 2), 2) ∧
    (pagesConcat pageItems 1 2).length = 140 :=
  ⟨getProducts_pagination srvTwoPages pageItems 2 5 (by decide) (by decide)
      (fun i _ _ => rfl)
      (by intro i hi1 hi2
          have hi : i = 1 := by omega
          subst hi
          decide)
      (by decide),
    by decide⟩

theorem noDD_tail {c : Char} {l : List Char} (h : noDoubleNewline (c :: l) = true) :
    noDoubleNewline l = true := by
  cases l with
  | nil => rfl
  | cons c2 rest =>
    simp only [noDoubleNewline, Bool.and_eq_true] at h
    exact h.2

theorem collapseNewlines_head (c : Char) (l : List Char) :
    (collapseNewlines (c :: l)).head? = some c := by
  induction l generalizing c with
  | nil => rfl
  | cons c2 rest ih =>
    simp only [collapseNewlines]
    by_cases h1 : c = '\n'
    · by_cases h2 : c2 = '\n'
      · rw [if_pos (by simp [h1, h2]), ih c2, h1, h2]
      · rw [if_neg (by simp [h2])]
        rfl
    · rw [if_neg (by simp [h1])]
      rfl

theorem not_and_newline_bool {c1 c2 : Char} (h : ¬(c1 = '\n' ∧ c2 = '\n')) :
    (!(c1 == '\n' && c2 == '\n')) = true := by
  rcases Classical.em (c1 = '\n') with e1 | e1
  · have e2 : ¬ c2 = '\n' := fun e2 => h ⟨e1, e2⟩
    simp [e1, e2]
  · simp [e1]

theorem collapseNewlines_noDD : ∀ l : List Char, noDoubleNewline (collapseNewlines l) = true
  | [] => rfl
  | [_] => rfl
  | c1 :: c2 :: rest => by
    by_cases h : c1 = '\n' ∧ c2 = '\n'
    · simp only [collapseNewlines]
      rw [if_pos (by simp [h.1, h.2])]
      exact collapseNewlines_noDD (c2 :: rest)
    · simp only [collapseNewlines]
      rw [if_neg (by simpa using h)]
      obtain ⟨t, ht⟩ : ∃ t, collapseNewlines (c2 :: rest) = c2 :: t := by
        have hh := collapseNewlines_head c2 rest
        cases hc : collapseNewlines (c2 :: rest) with
        | nil => rw [hc] at hh; cases hh
        | cons a t =>
          rw [hc] at hh
          exact ⟨t, by rw [Option.some.inj hh]⟩
      rw [ht]
      simp only [noDoubleNewline, Bool.and_eq_true]
      refine ⟨not_and_newline_bool h, ?_⟩
      have hrec := collapseNewlines_noDD (c2 :: rest)
      rw [ht] at hrec
      exact hrec

theorem collapseNewlines_fix : ∀ l : List Char,
    noDoubleNewline l = true → collapseNewlines l = l
  | [], _ => rfl
  | [_], _ => rfl
  | c1 :: c2 :: rest, h => by
    have hpair : ¬(c1 = '\n' ∧ c2 = '\n') := by
      intro hp
      simp [noDoubleNewline, hp.1, hp.2] at h
    simp only [collapseNewlines]
    rw [if_neg (by simpa using hpair)]
    rw [collapseNewlines_fix (c2 :: rest) (noDD_tail h)]

theorem noDD_dropWhile (p : Char → Bool) : ∀ l : List Char,
    noDoubleNewline l = true → noDoubleNewline (List.dropWhile p l) = true
  | [], h => h
  | c :: rest, h => by
    rw [List.dropWhile_cons]
    split
    · exact noDD_dropWhile p rest (noDD_tail h)
    · exact h

theorem trimRight_cons (c : Char) (l : List Char) :
    trimRight (c :: l) = match trimRight l with
      | [] => if goIsSpace c = true then [] else [c]
      | r => c :: r := rfl

theorem trimRight_head : ∀ (l : List Char) (c : Char) (t : List Char),
    trimRight l = c :: t → l.head? = some c
  | [], _, _, h => by cases h
  | a :: rest, c, t, h => by
    rw [trimRight_cons] at h
    cases htr : trimRight rest with
    | nil =>
      rw [htr] at h
      by_cases hsp : goIsSpace a = true
      · rw [if_pos hsp] at h
        cases h
      · rw [if_neg hsp] at h
        injection h with h1 _
        rw [h1]
        rfl
    | cons b r =>
      rw [htr] at h
      injection h with h1 _
      rw [h1]
      rfl

theorem trimRight_idem : ∀ l : List Char, trimRight (trimRight l) = trimRight l
  | [] => rfl
  | c :: rest => by
    rw [trimRight_cons]
    cases htr : trimRight rest with
    | nil =>
      by_cases hsp : goIsSpace c = true
      · rw [if_pos hsp]
        rfl
      · rw [if_neg hsp]
        rw [trimRight_cons]
        show (match ([] : List Char) with
          | [] => if goIsSpace c = true then [] else [c]
          | r => c :: r) = [c]
        rw [if_neg hsp]
    | cons b r =>
      have hidem := trimRight_idem rest
      rw [htr] at hidem
      rw [trimRight_cons, hidem]

theorem noDD_trimRight : ∀ l : List Char, noDoubleNewline l = true →
    noDoubleNewline (trimRight l) = true
  | [], h => h
  | c :: rest, h => by
    rw [trimRight_cons]
    cases htr : trimRight rest with
    | nil =>
      by_cases hsp : goIsSpace c = true
      · rw [if_pos hsp]
        rfl
      · rw [if_neg hsp]
        rfl
    | cons a t =>
      have hhead : rest.head? = some a := trimRight_head rest a t htr
      obtain ⟨rest2, hrest⟩ : ∃ r2, rest = a :: r2 := by
        cases rest with
        | nil => cases hhead
        | cons x xs => exact ⟨xs, by rw [Option.some.inj hhead]⟩
      have h2 : noDoubleNewline (a :: t) = true := by
        have hrec := noDD_trimRight rest (noDD_tail h)
        rw [htr] at hrec
        exact hrec
      have h1 : ¬(c = '\n' ∧ a = '\n') := by
        intro hp
        rw [hrest] at h
        simp [noDoubleNewline, hp.1, hp.2] at h
      simp only [noDoubleNewline, Bool.and_eq_true]
      exact ⟨not_and_newline_bool h1, h2⟩

theorem dropWhile_head_not (p : Char → Bool) : ∀ (l : List Char) (c : Char) (t : List Char),
    List.dropWhile p l = c :: t → p c = false
  | [], c, t, h => by cases h
  | a :: rest, c, t, h => by
    rw [List.dropWhile_cons] at h
    split at h
    · exact dropWhile_head_not p rest c t h
    · next hpa =>
      injection h with h1 _
      rw [← h1]
      simpa using hpa

theorem trimSpace_idem (l : List Char) : trimSpace (trimSpace l) = trimSpace l := by
  show trimRight (List.dropWhile goIsSpace (trimRight (List.dropWhile goIsSpace l)))
      = trimRight (List.dropWhile goIsSpace l)
  cases hv : trimRight (List.dropWhile goIsSpace l) with
  | nil => rfl
  | cons c t =>
    have hhead : (List.dropWhile goIsSpace l).head? = some c := trimRight_head _ c t hv
    obtain ⟨t2, ht2⟩ : ∃ t2, List.dropWhile goIsSpace l = c :: t2 := by
      cases hd : List.dropWhile goIsSpace l with
      | nil => rw [hd] at hhead; cases hhead
      | cons x xs =>
        rw [hd] at hhead
        exact ⟨xs, by rw [Option.some.inj hhead]⟩
    have hspc : goIsSpace c = false := dropWhile_head_not goIsSpace l c t2 ht2
    rw [List.dropWhile_cons, if_neg (by simp [hspc])]
    rw [← hv, trimRight_idem]

theorem noDD_trimSpace (l : List Char) (h : noDoubleNewline l = true) :
    noDoubleNewline (trimSpace l) = true :=
  noDD_trimRight _ (noDD_dropWhile goIsSpace l h)

/-- C8 counterexample: the text of eight hash characters contains no HTML
markup, yet one pass of the normalizer turns it into four hashes (the
non-overlapping four-hash to two-hash replacement) and a second pass into
two, so normalize of normalize differs from normalize on it. -/
theorem normalize_not_idempotent :
    cleanHTMLToMarkdown (cleanHTMLToMarkdown "########") ≠ cleanHTMLToMarkdown "########" ∧
    cleanHTMLToMarkdown "########" = "####" ∧
    cleanHTMLToMarkdown (cleanHTMLToMarkdown "########") = "##" := by
  decide

/-- C8 amended: the normalizer is not idempotent on all markup-free text,
but it is on any input whose normal form is left fixed by the hash
replacement and by image-markup removal: for such input a second pass
changes nothing, because the newline collapse and the trim are idempotent
on the normal form. -/
theorem normalize_idempotent_when_fixed (s : String)
    (h1 : replaceAllHash (cleanHTMLToMarkdown s).data = (cleanHTMLToMarkdown s).data)
    (h2 : removeImages (cleanHTMLToMarkdown s).data = (cleanHTMLToMarkdown s).data) :
    cleanHTMLToMarkdown (cleanHTMLToMarkdown s) = cleanHTMLToMarkdown s := by
  obtain ⟨z, hz⟩ : ∃ z, (cleanHTMLToMarkdown s).data = trimSpace (collapseNewlines z) :=
    ⟨removeImages (replaceAllHash s.data), rfl⟩
  have hnn : noDoubleNewline (cleanHTMLToMarkdown s).data = true := by
    rw [hz]
    exact noDD_trimSpace _ (collapseNewlines_noDD z)
  have htrim : trimSpace (cleanHTMLToMarkdown s).data = (cleanHTMLToMarkdown s).data := by
    rw [hz]
    exact trimSpace_idem _
  show String.mk (trimSpace (collapseNewlines (removeImages
      (replaceAllHash (cleanHTMLToMarkdown s).data)))) = cleanHTMLToMarkdown s
  rw [h1, h2, collapseNewlines_fix _ hnn, htrim]

/-- Witness for the amended C8 at a concrete already-normal text. -/
theorem normalize_idempotent_when_fixed_witness :
    cleanHTMLToMarkdown (cleanHTMLToMarkdown "hello world") = cleanHTMLToMarkdown "hello world" :=
  normalize_idempotent_when_fixed "hello world" (by decide) (by decide)

end Wooh
